import Mathlib

/-
Shallow embedding of `src/script/graphql/build-changelog.js`.

The script compares two GraphQL schema versions and builds a changelog
entry.  Schema parsing (`loadSchema`) and diffing (`diff`) are external
library calls that produce a list of change records `{type, path, message}`;
the embedding therefore starts from that list.  Change kinds
(`ChangeType.*` of @graphql-inspector/core) are opaque distinct string
tokens; we use the member names as the strings.

JavaScript semantics captured here:
  - `Array.prototype.includes` is list membership (`List.contains`);
  - object property assignment (`pathToPreview[path] = title`) is
    last-write-wins; we model the object as the ordered list of writes and
    a lookup returning the value of the last matching write;
  - `path.split(".")` splits on every dot and yields `[""]` on the empty
    string (`splitDotChars`);
  - `title.endsWith("preview")` is a case-sensitive suffix test
    (`jsEndsWith`; Lean's `String.endsWith` is not kernel-reducible, so we
    use the list-level suffix test);
  - the regex replace `message.replace(/'([a-zA-Z\. :!]+)'/g, '`$1`')`
    scans left to right; at each single quote the candidate match takes the
    maximal run of characters from the class (none of which is a quote, so
    no backtracking arises) and succeeds exactly when the run is non-empty
    and the next character is a closing quote (`replaceQuotedSpansAux`,
    structurally recursive on a fuel that starts at the string length and
    always suffices because every step consumes at least one character);
  - a `throw` aborts the whole `forEach`; classification is therefore
    `Except`, erring at the first unknown change kind;
  - the loop of `segmentPreviewChanges` pops the last dotted segment until
    the joined path has a truthy (non-empty-string) preview title in the
    index or no segments remain (`findPreviewTitleAux`, counting down the
    number of segments kept).
-/

namespace BuildChangelog

/-- A change record produced by the external schema diff: `{type, path, message}`. -/
structure Change where
  type : String
  path : String
  message : String
deriving DecidableEq, Repr

/-- A preview definition from `graphql_previews.yml`: a title and the dotted
path prefixes (`toggled_on`) the preview covers. -/
structure Preview where
  title : String
  toggled_on : List String
deriving DecidableEq, Repr

/-- One section of a changelog entry: a title and cleaned-up change messages. -/
structure ChangeSection where
  title : String
  changes : List String
deriving DecidableEq, Repr

/-- The changelog entry assembled by `createChangelogEntry` (the `date` field
is stamped later by the caller and is not part of this embedding). -/
structure ChangelogEntry where
  schemaChanges : List ChangeSection
  previewChanges : List ChangeSection
  upcomingChanges : List ChangeSection
deriving DecidableEq, Repr

/-- The change kinds the script reports (`CHANGES_TO_REPORT`, lines 183-207). -/
def CHANGES_TO_REPORT : List String := [
  "FieldArgumentDefaultChanged",
  "FieldArgumentTypeChanged",
  "EnumValueRemoved",
  "EnumValueAdded",
  "FieldRemoved",
  "FieldAdded",
  "FieldTypeChanged",
  "FieldArgumentAdded",
  "FieldArgumentRemoved",
  "ObjectTypeInterfaceAdded",
  "ObjectTypeInterfaceRemoved",
  "InputFieldRemoved",
  "InputFieldAdded",
  "InputFieldDefaultValueChanged",
  "InputFieldTypeChanged",
  "TypeRemoved",
  "TypeAdded",
  "TypeKindChanged",
  "UnionMemberRemoved",
  "UnionMemberAdded",
  "SchemaQueryTypeChanged",
  "SchemaMutationTypeChanged",
  "SchemaSubscriptionTypeChanged"]

/-- The change kinds the script silently ignores (`CHANGES_TO_IGNORE`, lines 209-239). -/
def CHANGES_TO_IGNORE : List String := [
  "FieldArgumentDescriptionChanged",
  "DirectiveRemoved",
  "DirectiveAdded",
  "DirectiveDescriptionChanged",
  "DirectiveLocationAdded",
  "DirectiveLocationRemoved",
  "DirectiveArgumentAdded",
  "DirectiveArgumentRemoved",
  "DirectiveArgumentDescriptionChanged",
  "DirectiveArgumentDefaultValueChanged",
  "DirectiveArgumentTypeChanged",
  "EnumValueDescriptionChanged",
  "EnumValueDeprecationReasonChanged",
  "EnumValueDeprecationReasonAdded",
  "EnumValueDeprecationReasonRemoved",
  "FieldDescriptionChanged",
  "FieldDescriptionAdded",
  "FieldDescriptionRemoved",
  "FieldDeprecationAdded",
  "FieldDeprecationRemoved",
  "FieldDeprecationReasonChanged",
  "FieldDeprecationReasonAdded",
  "FieldDeprecationReasonRemoved",
  "InputFieldDescriptionAdded",
  "InputFieldDescriptionRemoved",
  "InputFieldDescriptionChanged",
  "TypeDescriptionChanged",
  "TypeDescriptionRemoved",
  "TypeDescriptionAdded"]

/-- Lines 57-66: the `changes.forEach` loop that pushes reportable changes,
skips ignored ones, and throws on an unknown change kind.  The thrown string
aborts the run, hence `Except`; the error carries the first unknown kind. -/
def classifyChanges : List Change → Except String (List Change)
  | [] => Except.ok []
  | change :: rest =>
    if CHANGES_TO_REPORT.contains change.type then
      match classifyChanges rest with
      | Except.ok tail => Except.ok (change :: tail)
      | Except.error e => Except.error e
    else if CHANGES_TO_IGNORE.contains change.type then
      classifyChanges rest
    else
      Except.error ("This change type should be added to CHANGES_TO_REPORT or CHANGES_TO_IGNORE: " ++ change.type)

/-- Lines 147-152: the `pathToPreview` object, modelled as the ordered list
of property writes `(path, preview.title)` made by the nested `forEach`. -/
def buildPathToPreview (previews : List Preview) : List (String × String) :=
  (previews.map fun preview => preview.toggled_on.map fun path => (path, preview.title)).flatten

/-- Reading `pathToPreview[path]`: the value of the last write to that
property (JavaScript assignment overwrites), `none` when never written. -/
def idxLookup (pathToPreview : List (String × String)) (path : String) : Option String :=
  pathToPreview.foldl (fun acc kv => if kv.1 = path then some kv.2 else acc) none

/-- JavaScript `s.split(".")` over the character list: splits at every dot;
the empty string yields `[""]`. -/
def splitDotChars : List Char → List (List Char)
  | [] => [[]]
  | c :: rest =>
    if c = '.' then [] :: splitDotChars rest
    else
      match splitDotChars rest with
      | [] => [[c]]
      | part :: parts => (c :: part) :: parts

/-- `change.path.split(".")` (line 159). -/
def jsSplitDot (s : String) : List String :=
  (splitDotChars s.data).map String.mk

/-- Lines 163-169: the `while (pathParts.length > 0 && !previewTitle)` loop.
`n` is the number of leading segments still kept (`pathParts.length` after
the pops so far); each iteration joins those segments with dots, looks the
joined path up, and pops the last segment.  A looked-up empty title is falsy
in JavaScript (`!previewTitle`), so the walk continues past it, and line
170's `if (previewTitle)` would reject it too: the walk only ever returns a
non-empty title. -/
def findPreviewTitleAux (pathToPreview : List (String × String)) (pathParts : List String) :
    Nat → Option String
  | 0 => none
  | n + 1 =>
    match idxLookup pathToPreview (String.intercalate "." (pathParts.take (n + 1))) with
    | some previewTitle =>
      if previewTitle = "" then findPreviewTitleAux pathToPreview pathParts n
      else some previewTitle
    | none => findPreviewTitleAux pathToPreview pathParts n

/-- The whole walk of lines 159-169, starting from the full split path. -/
def findPreviewTitle (pathToPreview : List (String × String)) (pathParts : List String) :
    Option String :=
  findPreviewTitleAux pathToPreview pathParts pathParts.length

/-- A preview's accumulating bucket `{title, changes}` (lines 171-174). -/
structure PreviewBucket where
  title : String
  changes : List Change
deriving DecidableEq, Repr

/-- Lines 171-175: `changesByPreview[previewTitle] || (changesByPreview[previewTitle] = {title, changes: []})`
followed by `previewChanges.changes.push(change)`: append to the existing
bucket of that title, or create it at the end (JavaScript objects iterate
string keys in insertion order). -/
def addToPreview (changesByPreview : List (String × PreviewBucket)) (previewTitle : String)
    (change : Change) : List (String × PreviewBucket) :=
  match changesByPreview with
  | [] => [(previewTitle, { title := previewTitle, changes := [change] })]
  | (key, bucket) :: rest =>
    if key = previewTitle then
      (key, { bucket with changes := bucket.changes ++ [change] }) :: rest
    else
      (key, bucket) :: addToPreview rest previewTitle change

/-- The body of the `changesToReport.forEach` loop (lines 156-179): attribute
one change to its preview bucket or to the general schema bucket. -/
def segmentStep (pathToPreview : List (String × String))
    (acc : List Change × List (String × PreviewBucket)) (change : Change) :
    List Change × List (String × PreviewBucket) :=
  match findPreviewTitle pathToPreview (jsSplitDot change.path) with
  | some previewTitle => (acc.1, addToPreview acc.2 previewTitle change)
  | none => (acc.1 ++ [change], acc.2)

/-- The result of `segmentPreviewChanges` (line 180): the general schema
bucket and the per-preview buckets, an object keyed by title in insertion
order. -/
structure SegmentResult where
  schemaChangesToReport : List Change
  previewChangesToReport : List (String × PreviewBucket)
deriving DecidableEq, Repr

/-- Lines 144-181: `segmentPreviewChanges(changesToReport, previews)`. -/
def segmentPreviewChanges (changesToReport : List Change) (previews : List Preview) :
    SegmentResult :=
  let pathToPreview := buildPathToPreview previews
  let acc := changesToReport.foldl (segmentStep pathToPreview) ([], [])
  { schemaChangesToReport := acc.1, previewChangesToReport := acc.2 }

/-- JavaScript `s.endsWith(suffix)`: a case-sensitive suffix test. -/
def jsEndsWith (s suffix : String) : Bool :=
  suffix.data.isSuffixOf s.data

/-- Lines 113-122: `cleanPreviewTitle(title)`. -/
def cleanPreviewTitle (title : String) : String :=
  if title = "UpdateRefsPreview" then "Update refs preview"
  else if title = "MergeInfoPreview" then "Merge info preview"
  else if jsEndsWith title "preview" = false then title ++ " preview"
  else title

/-- A character of the regex class `[\w-]` used by `previewAnchor`:
`\w` is `[A-Za-z0-9_]`. -/
def isWordChar (c : Char) : Bool :=
  ('a' ≤ c && c ≤ 'z') || ('A' ≤ c && c ≤ 'Z') || ('0' ≤ c && c ≤ '9') || c = '_'

/-- `previewTitle.toLowerCase()` (line 131): ASCII lowercasing per character. -/
def jsToLowerCase (s : String) : String :=
  String.mk (s.data.map Char.toLower)

/-- `.replace(/ /g, '-')` (line 132): every space becomes a hyphen. -/
def replaceSpacesWithHyphens (s : String) : String :=
  String.mk (s.data.map fun c => if c = ' ' then '-' else c)

/-- `.replace(/[^\w-]/g, '')` (line 133): drop every character not in `[\w-]`. -/
def stripNonWordHyphen (s : String) : String :=
  String.mk (s.data.filter fun c => isWordChar c || c = '-')

/-- Lines 128-134: `previewAnchor(previewTitle)`. -/
def previewAnchor (previewTitle : String) : String :=
  stripNonWordHyphen (replaceSpacesWithHyphens (jsToLowerCase previewTitle))

/-- A character of the regex class `[a-zA-Z\. :!]` in the quoted-span regex
of line 140. -/
def isQuotedSpanChar (c : Char) : Bool :=
  c.isAlpha || c = '.' || c = ' ' || c = ':' || c = '!'

/-- The global regex replace of line 140, `/'([a-zA-Z\. :!]+)'/g` with
backticks around the captured group, scanning left to right.  At a single
quote the candidate match takes the maximal run of class characters (the
class has no quote, so the run is unique and no backtracking can succeed)
and matches exactly when the run is non-empty and the character after it is
a closing quote; scanning resumes after the match.  The fuel starts at the
input length and always suffices because every step consumes at least one
character; the fuel-0 row is never reached from `replaceQuotedSpans`. -/
def replaceQuotedSpansAux : Nat → List Char → List Char
  | 0, rest => rest
  | _ + 1, [] => []
  | fuel + 1, c :: rest =>
    if c = '\'' then
      if rest.takeWhile isQuotedSpanChar ≠ [] ∧
          (rest.dropWhile isQuotedSpanChar).head? = some '\'' then
        '`' :: rest.takeWhile isQuotedSpanChar ++ '`' ::
          replaceQuotedSpansAux fuel (rest.dropWhile isQuotedSpanChar).tail
      else
        c :: replaceQuotedSpansAux fuel rest
    else
      c :: replaceQuotedSpansAux fuel rest

/-- The scan over the full character list, fuel normalized to the length. -/
def replaceQuotedSpans (cs : List Char) : List Char :=
  replaceQuotedSpansAux cs.length cs

/-- `change.message.replace(/'([a-zA-Z\. :!]+)'/g, '`$1`')` on one message. -/
def cleanMessage (message : String) : String :=
  String.mk (replaceQuotedSpans message.data)

/-- Lines 136-142: `cleanMessagesFromChanges(changes)`. -/
def cleanMessagesFromChanges (changes : List Change) : List String :=
  changes.map fun change => cleanMessage change.message

/-- Line 78: the fixed title of the general schema section. -/
def schemaSectionTitle : String := "The GraphQL schema includes these changes:"

/-- Line 87: the synthesized title of one preview's section. -/
def previewSectionTitle (cleanTitle : String) : String :=
  "The [" ++ cleanTitle ++ "](/graphql/overview/schema-previews#" ++
    previewAnchor cleanTitle ++ ") includes these changes:"

/-- Line 70's condition `schemaChangesToReport.length > 0 || previewChangesToReport.length > 0`.
`previewChangesToReport` is a plain JavaScript object (not an array), so its
`.length` property is `undefined`, and `undefined > 0` evaluates to `false`:
the second disjunct never holds, whatever the buckets hold. -/
def previewChangesLengthPositive (_previewChangesToReport : List (String × PreviewBucket)) :
    Prop := False

instance (buckets : List (String × PreviewBucket)) :
    Decidable (previewChangesLengthPositive buckets) :=
  Decidable.isFalse fun h => h

/-- Lines 50-109: `createChangelogEntry`, starting from the change records
the external `loadSchema`/`diff` calls produced.  Classify (lines 57-66),
segment (line 68), and if line 70's condition holds assemble the entry:
the general schema section is always pushed (lines 77-82), one section per
preview bucket follows in insertion order (lines 84-92), and
`upcomingChanges` stays empty (line 104 is dead code).  Otherwise return
`null` (line 107). -/
def createChangelogEntry (changes : List Change) (previews : List Preview) :
    Except String (Option ChangelogEntry) :=
  match classifyChanges changes with
  | Except.error e => Except.error e
  | Except.ok changesToReport =>
    let seg := segmentPreviewChanges changesToReport previews
    if seg.schemaChangesToReport.length > 0 ∨
        previewChangesLengthPositive seg.previewChangesToReport then
      Except.ok (some {
        schemaChanges := [{
          title := schemaSectionTitle,
          changes := cleanMessagesFromChanges seg.schemaChangesToReport }],
        previewChanges := seg.previewChangesToReport.map fun kv =>
          { title := previewSectionTitle (cleanPreviewTitle kv.1),
            changes := cleanMessagesFromChanges kv.2.changes },
        upcomingChanges := [] })
    else
      Except.ok none

/-- The chain of dotted paths the attribution walk tries, most specific
first: the join of the first `n` segments, `n` counting down. -/
def ancestorPathsAux (pathParts : List String) : Nat → List String
  | 0 => []
  | n + 1 => String.intercalate "." (pathParts.take (n + 1)) :: ancestorPathsAux pathParts n

/-- All dotted ancestor paths of a split path, the full path first. -/
def ancestorPaths (pathParts : List String) : List String :=
  ancestorPathsAux pathParts pathParts.length

/-- The changes held by the per-preview buckets, flattened in bucket order. -/
def bucketsChanges (changesByPreview : List (String × PreviewBucket)) : List Change :=
  (changesByPreview.map fun kv => kv.2.changes).flatten

/-- Every change in every bucket of a segmentation result, the general
bucket first. -/
def allBucketChanges (r : SegmentResult) : List Change :=
  r.schemaChangesToReport ++ bucketsChanges r.previewChangesToReport

end BuildChangelog

namespace BuildChangelog

/-! ### Classification (claims C2, C3) -/

/-- C2: for every input sequence of change records whose types all lie in
`CHANGES_TO_REPORT` or `CHANGES_TO_IGNORE`, the classifier succeeds and its
output is exactly the subsequence (in original order, records unmodified) of
records whose type is in `CHANGES_TO_REPORT`. -/
theorem C2_classifier_keeps_reportable_subsequence (changes : List Change)
    (h : ∀ c ∈ changes, c.type ∈ CHANGES_TO_REPORT ∨ c.type ∈ CHANGES_TO_IGNORE) :
    classifyChanges changes =
      Except.ok (changes.filter fun c => CHANGES_TO_REPORT.contains c.type) := by
  induction changes with
  | nil => rfl
  | cons c rest ih =>
    have hrest := fun x hx => h x (List.mem_cons_of_mem _ hx)
    by_cases hr : c.type ∈ CHANGES_TO_REPORT
    · simp [classifyChanges, hr, ih hrest, List.filter_cons]
    · rcases h c (List.mem_cons_self ..) with hc | hc
      · exact absurd hc hr
      · simp [classifyChanges, hr, hc, ih hrest, List.filter_cons]

/-- Witness for C2 at a concrete list: one reportable and one ignored record. -/
theorem C2_classifier_keeps_reportable_subsequence_witness :
    classifyChanges
        [⟨"FieldAdded", "Query.a", "m1"⟩, ⟨"TypeDescriptionChanged", "T", "m2"⟩] =
      Except.ok [⟨"FieldAdded", "Query.a", "m1"⟩] :=
  C2_classifier_keeps_reportable_subsequence
    [⟨"FieldAdded", "Query.a", "m1"⟩, ⟨"TypeDescriptionChanged", "T", "m2"⟩]
    (by decide)

/-- C3: classification fails (the run aborts with the unknown-change-kind
error) exactly when some record's type is in neither `CHANGES_TO_REPORT` nor
`CHANGES_TO_IGNORE`. -/
theorem C3_unknown_kind_errors (changes : List Change) :
    (∃ c ∈ changes, c.type ∉ CHANGES_TO_REPORT ∧ c.type ∉ CHANGES_TO_IGNORE) ↔
      ∃ e, classifyChanges changes = Except.error e := by
  induction changes with
  | nil => simp [classifyChanges]
  | cons c rest ih =>
    constructor
    · rintro ⟨x, hx, hxr, hxi⟩
      rcases List.mem_cons.mp hx with rfl | hx
      · exact ⟨"This change type should be added to CHANGES_TO_REPORT or CHANGES_TO_IGNORE: " ++ x.type,
          by simp [classifyChanges, hxr, hxi]⟩
      · obtain ⟨e, he⟩ := ih.mp ⟨x, hx, hxr, hxi⟩
        by_cases hr : c.type ∈ CHANGES_TO_REPORT
        · exact ⟨e, by simp [classifyChanges, hr, he]⟩
        · by_cases hi : c.type ∈ CHANGES_TO_IGNORE
          · exact ⟨e, by simp [classifyChanges, hr, hi, he]⟩
          · exact ⟨"This change type should be added to CHANGES_TO_REPORT or CHANGES_TO_IGNORE: " ++ c.type,
              by simp [classifyChanges, hr, hi]⟩
    · rintro ⟨e, he⟩
      by_cases hr : c.type ∈ CHANGES_TO_REPORT
      · cases hrest : classifyChanges rest with
        | ok tail => simp [classifyChanges, hr, hrest] at he
        | error e2 =>
          obtain ⟨x, hx, hxr, hxi⟩ := ih.mpr ⟨e2, hrest⟩
          exact ⟨x, List.mem_cons_of_mem _ hx, hxr, hxi⟩
      · by_cases hi : c.type ∈ CHANGES_TO_IGNORE
        · simp only [classifyChanges] at he
          rw [if_neg (by simpa using hr), if_pos (by simpa using hi)] at he
          obtain ⟨x, hx, hxr, hxi⟩ := ih.mpr ⟨e, he⟩
          exact ⟨x, List.mem_cons_of_mem _ hx, hxr, hxi⟩
        · exact ⟨c, List.mem_cons_self .., hr, hi⟩

/-- Witness for C3: a record of unknown kind makes classification fail. -/
theorem C3_unknown_kind_errors_witness :
    ∃ e, classifyChanges [⟨"SomethingNew", "Query.a", "m"⟩] = Except.error e :=
  (C3_unknown_kind_errors [⟨"SomethingNew", "Query.a", "m"⟩]).mp
    ⟨⟨"SomethingNew", "Query.a", "m"⟩, by decide, by decide, by decide⟩

end BuildChangelog

namespace BuildChangelog

/-! ### Title and anchor cleanup (claims C7, C8) -/

/-- C7: `cleanPreviewTitle` maps the two literals to their renames; any other
title not ending in the lowercase string "preview" (case-sensitively) gets
" preview" appended, and any other title already ending in "preview" is
returned unchanged. -/
theorem C7_clean_preview_title :
    cleanPreviewTitle "UpdateRefsPreview" = "Update refs preview" ∧
    cleanPreviewTitle "MergeInfoPreview" = "Merge info preview" ∧
    ∀ title : String, title ≠ "UpdateRefsPreview" → title ≠ "MergeInfoPreview" →
      (jsEndsWith title "preview" = false → cleanPreviewTitle title = title ++ " preview") ∧
      (jsEndsWith title "preview" = true → cleanPreviewTitle title = title) := by
  refine ⟨by decide, by decide, ?_⟩
  intro title h1 h2
  exact ⟨fun he => by simp [cleanPreviewTitle, h1, h2, he],
    fun he => by simp [cleanPreviewTitle, h1, h2, he]⟩

/-- Witness for C7 at concrete titles: "Checks" gains the suffix,
"Nice preview" stays unchanged. -/
theorem C7_clean_preview_title_witness :
    cleanPreviewTitle "Checks" = "Checks preview" ∧ cleanPreviewTitle "Nice preview" = "Nice preview" :=
  ⟨(C7_clean_preview_title.2.2 "Checks" (by decide) (by decide)).1 (by decide),
   (C7_clean_preview_title.2.2 "Nice preview" (by decide) (by decide)).2 (by decide)⟩

/-- C8: `previewAnchor` lowercases, then turns spaces into hyphens, then
strips every character that is not a word character or a hyphen, in that
order; on "Update refs preview" it yields "update-refs-preview". -/
theorem C8_preview_anchor :
    (∀ s : String,
      (previewAnchor s).data =
        ((s.data.map Char.toLower).map fun c => if c = ' ' then '-' else c).filter
          fun c => isWordChar c || c = '-') ∧
    previewAnchor "Update refs preview" = "update-refs-preview" :=
  ⟨fun _ => rfl, by decide⟩

/-! ### The entry-building condition (claims C4, C10) -/

/-- C4, evaluated at the failing input: a single reportable change whose path
is covered by a preview fills the preview bucket and leaves the general
bucket empty, yet `createChangelogEntry` returns `null` — line 70 reads
`.length` off a plain object, so the preview bucket can never make the
condition true. -/
theorem C4_preview_only_changes_yield_null :
    createChangelogEntry [⟨"FieldAdded", "Query.foo.bar", "Field was added"⟩]
        [⟨"FooPreview", ["Query.foo"]⟩] = Except.ok none ∧
    (segmentPreviewChanges [⟨"FieldAdded", "Query.foo.bar", "Field was added"⟩]
        [⟨"FooPreview", ["Query.foo"]⟩]).previewChangesToReport ≠ [] ∧
    (segmentPreviewChanges [⟨"FieldAdded", "Query.foo.bar", "Field was added"⟩]
        [⟨"FooPreview", ["Query.foo"]⟩]).schemaChangesToReport = [] := by
  refine ⟨rfl, ?_, rfl⟩
  decide

/-- C10 fails on the code: when every reportable change is attributed to a
preview, `createChangelogEntry` returns `null` rather than a non-null entry
carrying a general section with an empty changes list. -/
theorem C10_all_preview_changes_give_no_entry :
    createChangelogEntry [⟨"FieldRemoved", "Query.bar.baz", "Field was removed"⟩]
        [⟨"BarPreview", ["Query.bar"]⟩] = Except.ok none ∧
    (segmentPreviewChanges [⟨"FieldRemoved", "Query.bar.baz", "Field was removed"⟩]
        [⟨"BarPreview", ["Query.bar"]⟩]).schemaChangesToReport = [] ∧
    (segmentPreviewChanges [⟨"FieldRemoved", "Query.bar.baz", "Field was removed"⟩]
        [⟨"BarPreview", ["Query.bar"]⟩]).previewChangesToReport ≠ [] := by
  refine ⟨rfl, rfl, ?_⟩
  decide

/-- C10 as amended: whenever `createChangelogEntry` returns a non-null entry,
the entry carries exactly one general schema section, with the fixed title
and a non-empty changes list (the general bucket was non-empty; the
all-preview case returns `null` instead). -/
theorem C10_nonnull_entry_has_one_schema_section (changes : List Change)
    (previews : List Preview) (entry : ChangelogEntry)
    (h : createChangelogEntry changes previews = Except.ok (some entry)) :
    ∃ msgs, msgs ≠ [] ∧
      entry.schemaChanges = [{ title := schemaSectionTitle, changes := msgs }] := by
  cases hc : classifyChanges changes with
  | error e => simp [createChangelogEntry, hc] at h
  | ok changesToReport =>
    simp only [createChangelogEntry, hc] at h
    by_cases hlen :
        0 < (segmentPreviewChanges changesToReport previews).schemaChangesToReport.length
    · rw [if_pos (Or.inl hlen)] at h
      obtain rfl : _ = entry := by injection h with h2; injection h2
      refine ⟨cleanMessagesFromChanges
        (segmentPreviewChanges changesToReport previews).schemaChangesToReport, ?_, rfl⟩
      have : (cleanMessagesFromChanges
          (segmentPreviewChanges changesToReport previews).schemaChangesToReport).length =
          (segmentPreviewChanges changesToReport previews).schemaChangesToReport.length :=
        List.length_map ..
      intro hnil
      rw [hnil] at this
      simp at this
      omega
    · rw [if_neg ?_] at h
      · exact absurd h (by simp)
      · rintro (hpos | hfalse)
        · exact hlen hpos
        · exact hfalse

/-- Witness for the amended C10: one unattributed reportable change yields an
entry whose only schema section carries the fixed title. -/
theorem C10_nonnull_entry_has_one_schema_section_witness :
    ∃ msgs, msgs ≠ [] ∧
      ({ schemaChanges := [{ title := schemaSectionTitle, changes := ["m"] }],
         previewChanges := [], upcomingChanges := [] } : ChangelogEntry).schemaChanges =
        [{ title := schemaSectionTitle, changes := msgs }] :=
  C10_nonnull_entry_has_one_schema_section [⟨"FieldAdded", "Query.x", "m"⟩] []
    { schemaChanges := [{ title := schemaSectionTitle, changes := ["m"] }],
      previewChanges := [], upcomingChanges := [] } rfl

end BuildChangelog

namespace BuildChangelog

/-! ### The path-to-preview index (claims C5, C1) -/

/-- Folding the lookup step from any accumulator: a later matching write
overrides the accumulator, no matching write keeps it. -/
theorem idxLookup_foldl (path : String) (writes : List (String × String)) :
    ∀ acc : Option String,
      writes.foldl (fun a kv => if kv.1 = path then some kv.2 else a) acc =
        (idxLookup writes path).or acc := by
  induction writes with
  | nil => intro acc; rfl
  | cons kv rest ih =>
    intro acc
    show rest.foldl _ (if kv.1 = path then some kv.2 else acc) = _
    have hcons : idxLookup (kv :: rest) path =
        rest.foldl (fun a kv => if kv.1 = path then some kv.2 else a)
          (if kv.1 = path then some kv.2 else none) := rfl
    rw [ih, hcons, ih]
    cases hidx : idxLookup rest path with
    | some t => rfl
    | none =>
      by_cases hkv : kv.1 = path
      · simp [hkv, Option.or]
      · simp [hkv, Option.or]

/-- Lookup across concatenated write lists: the later list wins when it has
a matching write. -/
theorem idxLookup_append (xs ys : List (String × String)) (path : String) :
    idxLookup (xs ++ ys) path = (idxLookup ys path).or (idxLookup xs path) := by
  show (xs ++ ys).foldl _ none = _
  rw [List.foldl_append, idxLookup_foldl]
  rfl

/-- Lookup in the writes of a single preview: its title exactly when one of
its `toggled_on` paths is the looked-up path. -/
theorem idxLookup_one_preview (paths : List String) (t path : String) :
    idxLookup (paths.map fun q => (q, t)) path =
      if path ∈ paths then some t else none := by
  induction paths with
  | nil => rfl
  | cons q rest ih =>
    have hcons : idxLookup ((q, t) :: rest.map fun q => (q, t)) path =
        (rest.map fun q => (q, t)).foldl
          (fun a kv => if kv.1 = path then some kv.2 else a)
          (if q = path then some t else none) := rfl
    rw [List.map_cons, hcons, idxLookup_foldl, ih]
    by_cases hq : q = path
    · by_cases hrest : path ∈ rest <;> simp [hq, hrest, Option.or]
    · by_cases hrest : path ∈ rest <;> simp [hrest, Option.or, Ne.symm hq, hq]

/-- `buildPathToPreview` over one more, later-loaded preview: its writes are
appended after all earlier ones. -/
theorem buildPathToPreview_concat (previews : List Preview) (p : Preview) :
    buildPathToPreview (previews ++ [p]) =
      buildPathToPreview previews ++ p.toggled_on.map fun q => (q, p.title) := by
  simp [buildPathToPreview]

/-- The index lookup resolves to the title of the last-loaded preview whose
`toggled_on` list contains the path. -/
theorem idxLookup_build (previews : List Preview) (path : String) :
    idxLookup (buildPathToPreview previews) path =
      ((previews.filter fun p => p.toggled_on.contains path).getLast?).map Preview.title := by
  induction previews using List.reverseRecOn with
  | nil => rfl
  | append_singleton ps p ih =>
    rw [buildPathToPreview_concat, idxLookup_append, ih, List.filter_append,
      idxLookup_one_preview]
    by_cases hp : path ∈ p.toggled_on
    · simp [hp, Option.or, List.getLast?_concat]
    · simp [hp, Option.or]

/-- C5: the write of the later-loaded preview determines the index entry for
a shared prefix path.  In general the lookup returns the title of the last
preview in load order covering the path; in particular for two previews both
covering the path, the second one wins. -/
theorem C5_last_write_wins :
    (∀ (previews : List Preview) (path : String),
      idxLookup (buildPathToPreview previews) path =
        ((previews.filter fun p => p.toggled_on.contains path).getLast?).map Preview.title) ∧
    ∀ (p1 p2 : Preview) (path : String),
      p1.toggled_on.contains path = true → p2.toggled_on.contains path = true →
      idxLookup (buildPathToPreview [p1, p2]) path = some p2.title := by
  refine ⟨idxLookup_build, ?_⟩
  intro p1 p2 path h1 h2
  have m1 : path ∈ p1.toggled_on := by simpa using h1
  have m2 : path ∈ p2.toggled_on := by simpa using h2
  rw [idxLookup_build]
  simp [List.filter_cons, m1, m2]

/-- Witness for C5: two previews both covering "Query.x"; the later one,
"Beta", determines the attribution. -/
theorem C5_last_write_wins_witness :
    idxLookup (buildPathToPreview [⟨"Alpha", ["Query.x"]⟩, ⟨"Beta", ["Query.x"]⟩]) "Query.x" =
      some "Beta" :=
  C5_last_write_wins.2 ⟨"Alpha", ["Query.x"]⟩ ⟨"Beta", ["Query.x"]⟩ "Query.x"
    (by decide) (by decide)

end BuildChangelog

namespace BuildChangelog

/-- Every value written into the path-to-preview index is some preview's title. -/
theorem mem_buildPathToPreview (previews : List Preview) (kv : String × String)
    (h : kv ∈ buildPathToPreview previews) : ∃ p ∈ previews, kv.2 = p.title := by
  simp only [buildPathToPreview, List.mem_flatten, List.mem_map] at h
  obtain ⟨block, ⟨p, hp, rfl⟩, hkv⟩ := h
  obtain ⟨q, hq, rfl⟩ := List.mem_map.mp hkv
  exact ⟨p, hp, rfl⟩

/-- A successful index lookup returns the value of one of the writes. -/
theorem idxLookup_mem (writes : List (String × String)) (path t : String)
    (h : idxLookup writes path = some t) : (path, t) ∈ writes := by
  induction writes using List.reverseRecOn with
  | nil => cases h
  | append_singleton xs kv ih =>
    rw [idxLookup_append] at h
    by_cases hkv : kv.1 = path
    · have hone : idxLookup [kv] path = some kv.2 := by simp [idxLookup, hkv]
      rw [hone] at h
      obtain rfl : kv.2 = t := by simpa [Option.or] using h
      have hpair : (path, kv.2) = kv := by rw [← hkv]
      rw [hpair]
      exact List.mem_append_right _ (List.mem_singleton.mpr rfl)
    · have hone : idxLookup [kv] path = none := by simp [idxLookup, hkv]
      rw [hone] at h
      simp only [Option.or] at h
      exact List.mem_append_left _ (ih h)

/-- When every index value is a non-empty title, the attribution walk is the
first successful lookup along the descending chain of ancestor paths. -/
theorem findPreviewTitleAux_eq_findSome (idx : List (String × String))
    (hne : ∀ kv ∈ idx, kv.2 ≠ "") (parts : List String) :
    ∀ n, findPreviewTitleAux idx parts n =
      (ancestorPathsAux parts n).findSome? (idxLookup idx) := by
  intro n
  induction n with
  | zero => rfl
  | succ n ih =>
    cases hl : idxLookup idx (String.intercalate "." (parts.take (n + 1))) with
    | some t =>
      have ht : t ≠ "" := hne _ (idxLookup_mem _ _ _ hl)
      simp [findPreviewTitleAux, ancestorPathsAux, List.findSome?, hl, ht]
    | none =>
      simp [findPreviewTitleAux, ancestorPathsAux, List.findSome?, hl, ih]

/-- C1: for previews with (non-empty) titles, the attribution walk of
`segmentPreviewChanges` returns the preview of the first, most specific
ancestor prefix found in the path-to-preview index; in particular, with a
preview toggled on at "Query.foo", a change at "Query.foo.bar" lands in that
preview's bucket and a change at "Query.other" lands in the general schema
bucket. -/
theorem C1_attribution_walks_ancestors :
    (∀ previews : List Preview, (∀ p ∈ previews, p.title ≠ "") →
      ∀ pathParts : List String,
        findPreviewTitle (buildPathToPreview previews) pathParts =
          (ancestorPaths pathParts).findSome? (idxLookup (buildPathToPreview previews))) ∧
    (segmentPreviewChanges
        [⟨"FieldAdded", "Query.foo.bar", "m1"⟩, ⟨"FieldAdded", "Query.other", "m2"⟩]
        [⟨"FooPreview", ["Query.foo"]⟩]).previewChangesToReport =
      [("FooPreview", ⟨"FooPreview", [⟨"FieldAdded", "Query.foo.bar", "m1"⟩]⟩)] ∧
    (segmentPreviewChanges
        [⟨"FieldAdded", "Query.foo.bar", "m1"⟩, ⟨"FieldAdded", "Query.other", "m2"⟩]
        [⟨"FooPreview", ["Query.foo"]⟩]).schemaChangesToReport =
      [⟨"FieldAdded", "Query.other", "m2"⟩] := by
  refine ⟨?_, by decide, by decide⟩
  intro previews hprev parts
  apply findPreviewTitleAux_eq_findSome
  intro kv hkv
  obtain ⟨p, hp, heq⟩ := mem_buildPathToPreview previews kv hkv
  rw [heq]
  exact hprev p hp

/-- Witness for C1: the walk on split path ["Query", "foo", "bar"] against a
single preview toggled on at "Query.foo". -/
theorem C1_attribution_walks_ancestors_witness :
    findPreviewTitle (buildPathToPreview [⟨"FooPreview", ["Query.foo"]⟩])
        ["Query", "foo", "bar"] =
      (ancestorPaths ["Query", "foo", "bar"]).findSome?
        (idxLookup (buildPathToPreview [⟨"FooPreview", ["Query.foo"]⟩])) :=
  C1_attribution_walks_ancestors.1 [⟨"FooPreview", ["Query.foo"]⟩] (by decide)
    ["Query", "foo", "bar"]

end BuildChangelog

namespace BuildChangelog

/-! ### Segmentation partitions the changes (claim C9) -/

theorem bucketsChanges_cons (kv : String × PreviewBucket)
    (rest : List (String × PreviewBucket)) :
    bucketsChanges (kv :: rest) = kv.2.changes ++ bucketsChanges rest := rfl

theorem coe_append_multiset (l1 l2 : List Change) :
    ((l1 ++ l2 : List Change) : Multiset Change) = (l1 : Multiset Change) + l2 := rfl

/-- Appending a change to its preview bucket adds exactly that change to the
flattened bucket contents. -/
theorem bucketsChanges_addToPreview (changesByPreview : List (String × PreviewBucket))
    (previewTitle : String) (change : Change) :
    (bucketsChanges (addToPreview changesByPreview previewTitle change) : Multiset Change) =
      (bucketsChanges changesByPreview : Multiset Change) + {change} := by
  induction changesByPreview with
  | nil => rfl
  | cons kv rest ih =>
    by_cases hk : kv.1 = previewTitle
    · simp only [addToPreview, if_pos hk, bucketsChanges_cons, coe_append_multiset]
      show ((kv.2.changes ++ [change] : List Change) : Multiset Change) + _ = _
      rw [coe_append_multiset]
      have hsing : (([change] : List Change) : Multiset Change) = {change} := rfl
      rw [hsing]
      abel
    · simp only [addToPreview, if_neg hk, bucketsChanges_cons, coe_append_multiset, ih]
      abel

/-- The fold of `segmentPreviewChanges` preserves the multiset of changes:
what the two buckets hold after the fold is what they held before plus the
changes folded in. -/
theorem segment_foldl_multiset (pathToPreview : List (String × String))
    (changesToReport : List Change) :
    ∀ acc : List Change × List (String × PreviewBucket),
      (((changesToReport.foldl (segmentStep pathToPreview) acc).1 : Multiset Change) +
        (bucketsChanges (changesToReport.foldl (segmentStep pathToPreview) acc).2 : Multiset Change)) =
      ((acc.1 : Multiset Change) + (bucketsChanges acc.2 : Multiset Change)) +
        (changesToReport : Multiset Change) := by
  induction changesToReport with
  | nil => intro acc; simp
  | cons c rest ih =>
    intro acc
    rw [List.foldl_cons, ih]
    have hcons : ((c :: rest : List Change) : Multiset Change) =
        ({c} : Multiset Change) + rest := by
      rw [← Multiset.cons_coe, ← Multiset.singleton_add]
    rw [hcons]
    cases hf : findPreviewTitle pathToPreview (jsSplitDot c.path) with
    | some t =>
      simp only [segmentStep, hf]
      rw [bucketsChanges_addToPreview]
      abel
    | none =>
      simp only [segmentStep, hf]
      rw [coe_append_multiset]
      have hsing : (([c] : List Change) : Multiset Change) = {c} := rfl
      rw [hsing]
      abel

/-- C9: `segmentPreviewChanges` places every input change in exactly one
bucket — as multisets, the union of the general bucket and all preview
buckets is the input, so no change is dropped or duplicated, and the bucket
sizes sum to the input length. -/
theorem C9_segmentation_partitions (changesToReport : List Change)
    (previews : List Preview) :
    (allBucketChanges (segmentPreviewChanges changesToReport previews) : Multiset Change) =
      (changesToReport : Multiset Change) ∧
    (allBucketChanges (segmentPreviewChanges changesToReport previews)).length =
      changesToReport.length := by
  have h := segment_foldl_multiset (buildPathToPreview previews) changesToReport ([], [])
  have h1 : (allBucketChanges (segmentPreviewChanges changesToReport previews) :
      Multiset Change) = (changesToReport : Multiset Change) := by
    show (((changesToReport.foldl (segmentStep (buildPathToPreview previews)) ([], [])).1 ++
      bucketsChanges (changesToReport.foldl (segmentStep (buildPathToPreview previews))
        ([], [])).2 : List Change) : Multiset Change) = _
    rw [coe_append_multiset, h]
    simp [bucketsChanges]
  refine ⟨h1, ?_⟩
  have h2 := congrArg Multiset.card h1
  simpa using h2

end BuildChangelog

namespace BuildChangelog

/-! ### Message cleanup (claim C6) -/

theorem length_dropWhile_le (p : Char → Bool) (l : List Char) :
    (l.dropWhile p).length ≤ l.length := by
  induction l with
  | nil => simp
  | cons c rest ih =>
    simp only [List.dropWhile]
    by_cases hc : p c
    · simp only [hc, if_true, List.length_cons]
      omega
    · simp [hc]

/-- `takeWhile` over a block of characters satisfying the predicate followed
by one that does not: exactly the block. -/
theorem takeWhile_all_append (p : Char → Bool) (w : List Char) (d : Char) (b : List Char)
    (hw : ∀ c ∈ w, p c = true) (hd : p d = false) :
    (w ++ d :: b).takeWhile p = w := by
  induction w with
  | nil => simp [List.takeWhile, hd]
  | cons c rest ih =>
    have hc := hw c (List.mem_cons_self ..)
    simp [List.takeWhile, hc, ih fun x hx => hw x (List.mem_cons_of_mem _ hx)]

/-- `dropWhile` over the same shape: everything from the failing character on. -/
theorem dropWhile_all_append (p : Char → Bool) (w : List Char) (d : Char) (b : List Char)
    (hw : ∀ c ∈ w, p c = true) (hd : p d = false) :
    (w ++ d :: b).dropWhile p = d :: b := by
  induction w with
  | nil => simp [List.dropWhile, hd]
  | cons c rest ih =>
    have hc := hw c (List.mem_cons_self ..)
    simp [List.dropWhile, hc, ih fun x hx => hw x (List.mem_cons_of_mem _ hx)]

/-- The fuel of `replaceQuotedSpansAux` is irrelevant once it reaches the
input length: the scan never runs out. -/
theorem replaceQuotedSpansAux_fuel (fuel : Nat) :
    ∀ cs : List Char, cs.length ≤ fuel →
      replaceQuotedSpansAux fuel cs = replaceQuotedSpansAux cs.length cs := by
  induction fuel using Nat.strong_induction_on with
  | _ fuel ih =>
    intro cs hlen
    cases cs with
    | nil => cases fuel <;> rfl
    | cons c rest =>
      cases fuel with
      | zero => simp at hlen
      | succ f =>
        have hrest : rest.length ≤ f := by
          simp only [List.length_cons] at hlen
          omega
        rw [List.length_cons]
        simp only [replaceQuotedSpansAux]
        by_cases hq : c = '\''
        · simp only [if_pos hq]
          by_cases hm : rest.takeWhile isQuotedSpanChar ≠ [] ∧
              (rest.dropWhile isQuotedSpanChar).head? = some '\''
          · simp only [if_pos hm]
            have ht : ((rest.dropWhile isQuotedSpanChar).tail).length ≤ rest.length := by
              have h1 := length_dropWhile_le isQuotedSpanChar rest
              have h2 := List.length_tail (rest.dropWhile isQuotedSpanChar)
              omega
            rw [ih f (Nat.lt_succ_self f) _ (le_trans ht hrest),
              ih rest.length (Nat.lt_succ_of_le hrest) _ ht]
          · simp only [if_neg hm]
            rw [ih f (Nat.lt_succ_self f) rest hrest]
        · simp only [if_neg hq]
          rw [ih f (Nat.lt_succ_self f) rest hrest]

theorem cleanMessage_eq_replaceQuotedSpans (message : String) :
    cleanMessage message = String.mk (replaceQuotedSpans message.data) := rfl

/-- A quote-free character list passes through the scan unchanged. -/
theorem replaceQuotedSpans_no_quote (cs : List Char) (h : ∀ c ∈ cs, c ≠ '\'') :
    replaceQuotedSpans cs = cs := by
  induction cs with
  | nil => rfl
  | cons c rest ih =>
    show replaceQuotedSpansAux (rest.length + 1) (c :: rest) = c :: rest
    simp only [replaceQuotedSpansAux]
    rw [if_neg (h c (List.mem_cons_self ..))]
    rw [show replaceQuotedSpansAux rest.length rest = replaceQuotedSpans rest from rfl]
    rw [ih fun x hx => h x (List.mem_cons_of_mem _ hx)]

/-- A quoted span of class characters after a quote-free head is rewritten to
backticks, and scanning resumes after the closing quote. -/
theorem replaceQuotedSpans_match (a w b : List Char)
    (ha : ∀ c ∈ a, c ≠ '\'') (hw : w ≠ [])
    (hspan : ∀ c ∈ w, isQuotedSpanChar c = true) :
    replaceQuotedSpans (a ++ '\'' :: w ++ '\'' :: b) =
      a ++ '`' :: w ++ '`' :: replaceQuotedSpans b := by
  induction a with
  | nil =>
    show replaceQuotedSpansAux ((w ++ '\'' :: b).length + 1) ('\'' :: (w ++ '\'' :: b)) = _
    simp only [replaceQuotedSpansAux, if_pos rfl]
    have hquote : isQuotedSpanChar '\'' = false := by decide
    rw [takeWhile_all_append _ _ _ _ hspan hquote, dropWhile_all_append _ _ _ _ hspan hquote]
    have hcond : w ≠ [] ∧ (('\'' : Char) :: b).head? = some '\'' := ⟨hw, rfl⟩
    rw [if_pos hcond, if_true]
    have hb : b.length ≤ (w ++ '\'' :: b).length := by
      simp only [List.length_append, List.length_cons]
      omega
    show '`' :: w ++ '`' :: replaceQuotedSpansAux (w ++ '\'' :: b).length b =
      ([] : List Char) ++ '`' :: w ++ '`' :: replaceQuotedSpans b
    rw [replaceQuotedSpansAux_fuel _ b hb, List.nil_append]
    rfl
  | cons c a ih =>
    rw [List.cons_append]
    show replaceQuotedSpansAux ((a ++ '\'' :: w ++ '\'' :: b).length + 1)
      (c :: (a ++ '\'' :: w ++ '\'' :: b)) = _
    simp only [replaceQuotedSpansAux]
    rw [if_neg (ha c (List.mem_cons_self ..))]
    rw [show replaceQuotedSpansAux (a ++ '\'' :: w ++ '\'' :: b).length
        (a ++ '\'' :: w ++ '\'' :: b) =
      replaceQuotedSpans (a ++ '\'' :: w ++ '\'' :: b) from rfl]
    rw [ih fun x hx => ha x (List.mem_cons_of_mem _ hx)]
    rfl

/-- C6: message cleanup replaces each single-quoted span of letters, spaces,
periods, colons, or exclamation marks with the same text in backticks, leaves
quote-free text unchanged, turns "The field 'name' was removed." into
"The field `name` was removed.", and leaves "The field 'my_field' was
removed." (underscore in the span) unchanged. -/
theorem C6_message_cleanup :
    (∀ a w b : String, (∀ c ∈ a.data, c ≠ '\'') → w.data ≠ [] →
      (∀ c ∈ w.data, isQuotedSpanChar c = true) →
      cleanMessage (a ++ "'" ++ w ++ "'" ++ b) = a ++ "`" ++ w ++ "`" ++ cleanMessage b) ∧
    (∀ s : String, (∀ c ∈ s.data, c ≠ '\'') → cleanMessage s = s) ∧
    cleanMessage "The field 'name' was removed." = "The field `name` was removed." ∧
    cleanMessage "The field 'my_field' was removed." = "The field 'my_field' was removed." := by
  refine ⟨?_, ?_, by decide, by decide⟩
  · intro a w b ha hw hspan
    apply String.ext
    show (replaceQuotedSpans (a ++ "'" ++ w ++ "'" ++ b).data) = _
    have hdata : (a ++ "'" ++ w ++ "'" ++ b).data =
        a.data ++ '\'' :: w.data ++ '\'' :: b.data := by
      simp [String.data_append]
    rw [hdata, replaceQuotedSpans_match _ _ _ ha hw hspan]
    simp [String.data_append, cleanMessage_eq_replaceQuotedSpans]
  · intro s hs
    apply String.ext
    show replaceQuotedSpans s.data = s.data
    exact replaceQuotedSpans_no_quote s.data hs

/-- Witness for C6 at a concrete split: prefix "x ", span "abc", suffix " y". -/
theorem C6_message_cleanup_witness :
    cleanMessage ("x " ++ "'" ++ "abc" ++ "'" ++ " y") =
      "x " ++ "`" ++ "abc" ++ "`" ++ cleanMessage " y" :=
  C6_message_cleanup.1 "x " "abc" " y" (by decide) (by decide) (by decide)

end BuildChangelog

